import Mathlib

/-!
Shallow embedding of the SkinFIT Cup scoring engine
(`services/scoringService.ts` and `services/mockDataService.ts`),
with theorems settling the specification claims.

Conventions of the embedding:
* JS numbers used by the engine are integers in practice; they are modelled
  as `Int` (with `Option Int` for optional fields; `none` plays the role of
  `undefined`, and for adjusted team times `none` plays the role of
  `Infinity`).
* JS `Map` / plain objects keyed by strings are modelled as insertion-ordered
  association lists (`List (String × β)`) with `getKV` / `setKV`: `setKV` on
  an existing key replaces the value in place (keeping the position, like
  `Map.set`), and appends at the end for a fresh key.
* JS `Array.prototype.sort` (stable, ES2019+) with an integer comparator
  `c` is modelled as `List.insertionSort (fun a b => c a b ≤ 0)`, which is
  stable in the same sense.  The ECMAScript rule that a `NaN` comparator
  value is treated as `+0` makes `Infinity`-vs-`Infinity` comparisons ties;
  `cmpAdj` below encodes that.
* `String.prototype.localeCompare` is modelled as lexicographic string
  comparison (only used as a final presentation tie-break; no claim depends
  on its exact collation).
-/

namespace SkinfitCup

/-- Performance class enum (A/B/C/D), from `types.ts`. -/
inductive PerfCls where
  | A
  | B
  | C
  | D
deriving DecidableEq, Repr

/-- Gender enum, from `types.ts`. -/
inductive Gender where
  | male
  | female
deriving DecidableEq, Repr

/-- Group label enum (Hobby / Ambitioniert / Frauen), from `types.ts`. -/
inductive GroupLabel where
  | Hobby
  | Ambitious
  | Women
deriving DecidableEq, Repr

/-- Event type enum (EZF / MZF / BZF / Handicap), from `types.ts`. -/
inductive EventType where
  | EZF
  | MZF
  | BZF
  | Handicap
deriving DecidableEq, Repr

/-- Participant record (`types.ts`); only the fields read by the scoring
engine are modelled. -/
structure Participant where
  id : String
  firstName : String
  lastName : String
  birthYear : Int
  perfCls : PerfCls
  gender : Gender
deriving DecidableEq, Repr

/-- Event record (`types.ts`); only the fields read by the scoring engine
are modelled. -/
structure Event where
  id : String
  eventType : EventType
  finished : Bool
  season : Int
deriving DecidableEq, Repr

/-- Result record (`types.ts`).  Optional JS fields become `Option`;
the optional boolean equipment flags become `Bool` (absent ≡ `false`,
matching JS truthiness). -/
structure Result where
  id : String
  eventId : String
  participantId : String
  rankOverall : Option Int
  timeSeconds : Option Int
  winnerRank : Option Int
  finisherGroup : Option Int
  dnf : Bool
  points : Int
  hasAeroBars : Bool
  hasTTEquipment : Bool
deriving DecidableEq, Repr

/-- Team record (`types.ts`). -/
structure Team where
  id : String
  eventId : String
  name : String
deriving DecidableEq, Repr

/-- Team membership record (`types.ts`). -/
structure TeamMember where
  id : String
  teamId : String
  participantId : String
  penaltyMinus2 : Bool
deriving DecidableEq, Repr

/-- An enabled/seconds pair (`MaterialHandicapSetting` / `HandicapRule`
in `types.ts`). -/
structure HandicapRule where
  enabled : Bool
  seconds : Int
deriving DecidableEq, Repr

/-- An age-bracket handicap rule (`AgeHandicapRule` in `types.ts`). -/
structure AgeHandicapRule where
  enabled : Bool
  seconds : Int
  minAge : Int
  maxAge : Int
deriving DecidableEq, Repr

/-- The `handicapSettings` section of `Settings` (`types.ts`):
`gender.female`, `ageBrackets`, `perfClass.hobby`. -/
structure HandicapSettings where
  femaleRule : HandicapRule
  ageBrackets : List AgeHandicapRule
  hobbyRule : HandicapRule
deriving DecidableEq, Repr

/-- The `timeTrialBonuses` section of `Settings` (`types.ts`). -/
structure TimeTrialBonuses where
  aeroBars : HandicapRule
  ttEquipment : HandicapRule
deriving DecidableEq, Repr

/-- Settings (`types.ts`), as the TypeScript type declares them: every
section present.  `handicapBasePoints : Record<PerfClass, number>` is a
total function. -/
structure Settings where
  timeTrialBonuses : TimeTrialBonuses
  winnerPoints : List Int
  handicapBasePoints : PerfCls → Int
  dropScores : Int
  handicapSettings : HandicapSettings

/-- Settings as they exist at runtime: the `handicapSettings` and
`timeTrialBonuses` sections may be absent (`undefined`), which is what
`getInitialSettings` in `mockDataService.ts` actually produces. -/
structure SettingsOpt where
  timeTrialBonuses : Option TimeTrialBonuses
  winnerPoints : List Int
  handicapBasePoints : PerfCls → Int
  dropScores : Int
  handicapSettings : Option HandicapSettings

/-- `getInitialSettings` from `mockDataService.ts` (lines 39-56): note that
the object literal has **no** `handicapSettings` property. -/
def getInitialSettings : SettingsOpt where
  timeTrialBonuses := some { aeroBars := { enabled := true, seconds := 30 },
                             ttEquipment := { enabled := true, seconds := 30 } }
  winnerPoints := [3, 2, 1]
  handicapBasePoints := fun c => match c with
    | .A => 10
    | .B => 8
    | .C => 6
    | .D => 4
  dropScores := 1
  handicapSettings := none

/-- `getParticipantGroup` from `scoringService.ts`. -/
def getParticipantGroup (participant : Participant) : GroupLabel :=
  if participant.gender = Gender.female then GroupLabel.Women
  else if participant.perfCls = PerfCls.A ∨ participant.perfCls = PerfCls.B then GroupLabel.Hobby
  else GroupLabel.Ambitious

/-- `getPlacementPoints` from `scoringService.ts`. -/
def getPlacementPoints (rank : Int) : Int :=
  if rank ≤ 3 then 8
  else if rank ≤ 6 then 7
  else if rank ≤ 10 then 6
  else 5

/-- The age-bracket loop of `calculateHandicap`: apply the seconds of the
first enabled bracket containing `age`, then `break`. -/
def ageAdjustment (age : Int) : List AgeHandicapRule → Int
  | [] => 0
  | bracket :: rest =>
      if bracket.enabled ∧ bracket.minAge ≤ age ∧ age ≤ bracket.maxAge then bracket.seconds
      else ageAdjustment age rest

/-- `calculateHandicap` from `scoringService.ts` (lines 23-56), for
settings of the declared (fully-present) type.  The running `adjustment`
accumulator is modelled by sequential additions in source order. -/
def calculateHandicap (participant : Participant) (result : Result) (event : Event)
    (settings : Settings) : Int :=
  let eventYear := event.season
  let age := eventYear - participant.birthYear
  let hs := settings.handicapSettings
  let tb := settings.timeTrialBonuses
  let adjustment : Int := 0
  let adjustment := if hs.femaleRule.enabled ∧ participant.gender = Gender.female
    then adjustment + hs.femaleRule.seconds else adjustment
  let adjustment := adjustment + ageAdjustment age hs.ageBrackets
  let adjustment := if hs.hobbyRule.enabled ∧ (participant.perfCls = PerfCls.A ∨ participant.perfCls = PerfCls.B)
    then adjustment + hs.hobbyRule.seconds else adjustment
  let adjustment := if tb.aeroBars.enabled ∧ result.hasAeroBars
    then adjustment + tb.aeroBars.seconds else adjustment
  let adjustment := if tb.ttEquipment.enabled ∧ result.hasTTEquipment
    then adjustment + tb.ttEquipment.seconds else adjustment
  adjustment

/-- `calculateHandicap` under JS runtime semantics on `SettingsOpt`:
reading a property of an `undefined` section throws a `TypeError`,
modelled as `Except.error ()`.  The `handicapSettings` section is read
first (line 30 of the source), the `timeTrialBonuses` section later
(line 48). -/
def calculateHandicapRT (participant : Participant) (result : Result) (event : Event)
    (settings : SettingsOpt) : Except Unit Int :=
  let age := event.season - participant.birthYear
  match settings.handicapSettings with
  | none => Except.error ()
  | some hs =>
    let adjustment : Int := 0
    let adjustment := if hs.femaleRule.enabled ∧ participant.gender = Gender.female
      then adjustment + hs.femaleRule.seconds else adjustment
    let adjustment := adjustment + ageAdjustment age hs.ageBrackets
    let adjustment := if hs.hobbyRule.enabled ∧ (participant.perfCls = PerfCls.A ∨ participant.perfCls = PerfCls.B)
      then adjustment + hs.hobbyRule.seconds else adjustment
    match settings.timeTrialBonuses with
    | none => Except.error ()
    | some tb =>
      let adjustment := if tb.aeroBars.enabled ∧ result.hasAeroBars
        then adjustment + tb.aeroBars.seconds else adjustment
      let adjustment := if tb.ttEquipment.enabled ∧ result.hasTTEquipment
        then adjustment + tb.ttEquipment.seconds else adjustment
      Except.ok adjustment

/-- Lookup in an insertion-ordered association list (JS `Map.get` /
object property read). -/
def getKV {β : Type} : List (String × β) → String → Option β
  | [], _ => none
  | (k, v) :: rest, key => if k = key then some v else getKV rest key

/-- Update/insert in an insertion-ordered association list (JS `Map.set` /
object property write): replaces in place on an existing key, appends on a
fresh key. -/
def setKV {β : Type} : List (String × β) → String → β → List (String × β)
  | [], key, v => [(key, v)]
  | (k, w) :: rest, key, v =>
      if k = key then (key, v) :: rest else (k, w) :: setKV rest key v

/-- `new Map(participants.map(p => [p.id, p])).get(key)`: the last entry
with the given id wins. -/
def mapGetLast (participants : List Participant) (key : String) : Option Participant :=
  participants.foldl (fun acc p => if p.id = key then some p else acc) none

/-- `new Map(eventResults.map(r => [r.participantId, r])).get(key)`. -/
def resultByPid (eventResults : List Result) (key : String) : Option Result :=
  eventResults.foldl (fun acc r => if r.participantId = key then some r else acc) none

/-- The eligibility test `r.timeSeconds != null && r.timeSeconds > 0`. -/
def timePos (r : Result) : Bool :=
  match r.timeSeconds with
  | some t => decide (0 < t)
  | none => false

/-- Step 2 of `calculateTimeTrialPoints`: eligible finishers paired with
their handicap-adjusted time, before sorting.  Unknown participants are
excluded from ranking. -/
def rankedFinishersTT (event : Event) (eventResults : List Result)
    (participants : List Participant) (settings : Settings) : List (Result × Int) :=
  (eventResults.filter (fun r => !r.dnf && timePos r)).filterMap (fun r =>
    match mapGetLast participants r.participantId with
    | none => none
    | some participant =>
        some (r, r.timeSeconds.getD 0 + calculateHandicap participant r event settings))

/-- The winner-bonus addition of `calculateTimeTrialPoints` step 3:
`if (rankOverall <= settings.winnerPoints.length) points += settings.winnerPoints[rankOverall - 1]`
with `rankOverall = index + 1`. -/
def ttPointsAt (settings : Settings) (index : Nat) : Int :=
  let rank : Int := (index : Int) + 1
  let points := getPlacementPoints rank
  if rank ≤ (settings.winnerPoints.length : Int)
    then points + settings.winnerPoints.getD index 0 else points

/-- Step 1 of `calculateTimeTrialPoints`: the initial `finalResults` map,
one entry per result keyed by `r.id` (DNFs 0 points, finishers baseline 1,
rank cleared). -/
def initTTMap (eventResults : List Result) : List (String × Result) :=
  eventResults.foldl
    (fun m r => setKV m r.id { r with points := if r.dnf then 0 else 1, rankOverall := none }) []

/-- The eligible finishers after the ascending sort by adjusted time. -/
def sortedFinishersTT (event : Event) (eventResults : List Result)
    (participants : List Participant) (settings : Settings) : List (Result × Int) :=
  List.insertionSort (fun a b : Result × Int => a.2 ≤ b.2)
    (rankedFinishersTT event eventResults participants settings)

/-- One iteration of step 3 of `calculateTimeTrialPoints`: write back the
ranked result at sorted position `iv.1` (0-based) with rank `iv.1 + 1`. -/
def ttStep (settings : Settings) (m : List (String × Result)) (iv : Nat × (Result × Int)) :
    List (String × Result) :=
  setKV m iv.2.1.id
    { iv.2.1 with points := ttPointsAt settings iv.1, rankOverall := some ((iv.1 : Int) + 1) }

/-- `calculateTimeTrialPoints` from `scoringService.ts` (lines 59-106). -/
def calculateTimeTrialPoints (event : Event) (eventResults : List Result)
    (participants : List Participant) (settings : Settings) : List Result :=
  (((sortedFinishersTT event eventResults participants settings).enum.foldl
      (ttStep settings) (initTTMap eventResults))).map Prod.snd

/-- Points assigned to one result by `calculateHandicapPoints`
(`scoringService.ts` lines 116-146). -/
def handicapPointsFor (participants : List Participant) (settings : Settings)
    (result : Result) : Int :=
  if result.dnf then 0
  else match mapGetLast participants result.participantId with
    | none => 0
    | some participant =>
      let basePoints := settings.handicapBasePoints participant.perfCls
      let points := if result.finisherGroup = some 2
        then max 1 (basePoints - 1)
        else max 1 basePoints
      match result.winnerRank with
      | some w =>
          if w ≠ 0 ∧ w ≤ (settings.winnerPoints.length : Int)
            then points + settings.winnerPoints.getD (w - 1).toNat 0 else points
      | none => points

/-- `calculateHandicapPoints` from `scoringService.ts` (lines 108-148):
every result is pushed in order with its recomputed points. -/
def calculateHandicapPoints (eventResults : List Result) (participants : List Participant)
    (settings : Settings) : List Result :=
  eventResults.map (fun result => { result with points := handicapPointsFor participants settings result })

/-- A team enriched with its adjusted time and member list, the element
type of `rankedTeams` in `calculateTeamTimeTrialPoints`.  `adjustedTime =
none` models `Infinity`. -/
structure RankedTeam where
  id : String
  eventId : String
  name : String
  adjustedTime : Option Int
  memberIds : List String
deriving DecidableEq, Repr

/-- The JS comparator `(a, b) => a.adjustedTime - b.adjustedTime` on
possibly-infinite times; per the ECMAScript sort specification a `NaN`
comparator result (`Infinity - Infinity`) counts as `+0`. -/
def cmpAdj : Option Int → Option Int → Int
  | none, none => 0
  | none, some _ => 1
  | some _, none => -1
  | some a, some b => a - b

/-- Sort order on ranked teams induced by `cmpAdj`. -/
def teamLe (a b : RankedTeam) : Prop := cmpAdj a.adjustedTime b.adjustedTime ≤ 0

instance : DecidableRel teamLe := fun a b => by
  unfold teamLe; infer_instance

instance : IsTotal RankedTeam teamLe := by
  constructor
  intro a b
  unfold teamLe
  rcases a.adjustedTime with _ | x <;> rcases b.adjustedTime with _ | y <;> simp [cmpAdj] <;> omega

instance : IsTrans RankedTeam teamLe := by
  constructor
  intro a b c
  unfold teamLe
  rcases a.adjustedTime with _ | x <;> rcases b.adjustedTime with _ | y <;>
    rcases c.adjustedTime with _ | z <;> simp [cmpAdj] <;> omega

/-- The member results counted as valid finishers for a team
(`members.map(m => resultMap.get(m.participantId)).filter(r => r !== undefined && !r.dnf && r.timeSeconds > 0)`). -/
def validMemberResults (eventResults : List Result) (members : List TeamMember) : List Result :=
  members.filterMap (fun member =>
    match resultByPid eventResults member.participantId with
    | some r => if !r.dnf && timePos r then some r else none
    | none => none)

/-- The team handicap: `members.reduce(...)`, summing `calculateHandicap`
over every member whose participant and result both exist (DNF results
included). -/
def totalTeamHandicap (event : Event) (eventResults : List Result)
    (participants : List Participant) (settings : Settings) (members : List TeamMember) : Int :=
  members.foldl (fun sum member =>
    match mapGetLast participants member.participantId, resultByPid eventResults member.participantId with
    | some participant, some result =>
        sum + calculateHandicap participant result event settings
    | _, _ => sum) 0

/-- The body of `teams.map(team => ...)` in `calculateTeamTimeTrialPoints`
(lines 161-188): computes one team's adjusted time. -/
def teamEntry (event : Event) (eventResults : List Result) (teamMembers : List TeamMember)
    (participants : List Participant) (settings : Settings) (team : Team) : RankedTeam :=
  let members := teamMembers.filter (fun tm => tm.teamId = team.id)
  let memberResults := validMemberResults eventResults members
  if memberResults.length < 2 then
    { id := team.id, eventId := team.eventId, name := team.name,
      adjustedTime := none, memberIds := members.map (·.participantId) }
  else
    let sortedTimes := List.insertionSort (fun a b : Int => a ≤ b)
      (memberResults.map (fun r => r.timeSeconds.getD 0))
    let relevantRiderIndex : Int := max 0 ((sortedTimes.length : Int) - 2)
    let baseTime := sortedTimes.getD relevantRiderIndex.toNat 0
    let adjustedTime := baseTime + totalTeamHandicap event eventResults participants settings members
    { id := team.id, eventId := team.eventId, name := team.name,
      adjustedTime := some adjustedTime, memberIds := members.map (·.participantId) }

/-- The sorted `rankedTeams` list of `calculateTeamTimeTrialPoints`. -/
def rankedTeamsMZF (event : Event) (eventResults : List Result) (teams : List Team)
    (teamMembers : List TeamMember) (participants : List Participant)
    (settings : Settings) : List RankedTeam :=
  List.insertionSort teamLe (teams.map (teamEntry event eventResults teamMembers participants settings))

/-- The `teamPoints` map of `calculateTeamTimeTrialPoints` (lines 191-203):
teams with infinite time are skipped, the others get placement points plus
winner bonus at `rank = index + 1`. -/
def teamPointsMZF (event : Event) (eventResults : List Result) (teams : List Team)
    (teamMembers : List TeamMember) (participants : List Participant)
    (settings : Settings) : List (String × Int) :=
  (rankedTeamsMZF event eventResults teams teamMembers participants settings).enum.foldl
    (fun m it =>
      match it.2.adjustedTime with
      | none => m
      | some _ =>
        let rank : Int := (it.1 : Int) + 1
        let points := getPlacementPoints rank
        let points := if rank ≤ (settings.winnerPoints.length : Int)
          then points + settings.winnerPoints.getD it.1 0 else points
        setKV m it.2.id points) []

/-- The initial `resultsByParticipant` map of `calculateTeamTimeTrialPoints`
(line 206): every result keyed by participant id with points forced to 0. -/
def initTeamResults (eventResults : List Result) : List (String × Result) :=
  eventResults.foldl (fun m r => setKV m r.participantId { r with points := 0 }) []

/-- One iteration of the member loop of `calculateTeamTimeTrialPoints`
(lines 208-222).  `teamPoints.get(teamId) || 1` is modelled with JS
truthiness: a stored 0 also falls back to the finisher point 1. -/
def applyTeamMember (teamPoints : List (String × Int)) (m : List (String × Result))
    (member : TeamMember) : List (String × Result) :=
  match getKV m member.participantId with
  | none => m
  | some result =>
    if !result.dnf then
      let teamPts := match getKV teamPoints member.teamId with
        | some p => if p = 0 then 1 else p
        | none => 1
      let points := if member.penaltyMinus2 then max 0 (teamPts - 2) else teamPts
      setKV m member.participantId { result with points := points }
    else
      setKV m member.participantId { result with points := 0 }

/-- `calculateTeamTimeTrialPoints` from `scoringService.ts` (lines 150-224). -/
def calculateTeamTimeTrialPoints (event : Event) (eventResults : List Result)
    (teams : List Team) (teamMembers : List TeamMember) (participants : List Participant)
    (settings : Settings) : List Result :=
  (teamMembers.foldl
      (applyTeamMember (teamPointsMZF event eventResults teams teamMembers participants settings))
      (initTeamResults eventResults)).map Prod.snd

/-- `calculatePointsForEvent` from `scoringService.ts` (lines 228-251):
the dispatcher. -/
def calculatePointsForEvent (event : Event) (eventResults : List Result)
    (participants : List Participant) (teams : List Team) (teamMembers : List TeamMember)
    (settings : Settings) : List Result :=
  if !event.finished then
    eventResults.map (fun r => { r with points := 0, rankOverall := none })
  else match event.eventType with
    | .EZF => calculateTimeTrialPoints event eventResults participants settings
    | .BZF => calculateTimeTrialPoints event eventResults participants settings
    | .Handicap => calculateHandicapPoints eventResults participants settings
    | .MZF => calculateTeamTimeTrialPoints event eventResults teams teamMembers participants settings

/-- One per-event entry of a standing (`{ eventId, points, isDropped }`). -/
structure SRes where
  eventId : String
  points : Int
  isDropped : Bool
deriving DecidableEq, Repr

/-- The `Standing` interface of `scoringService.ts`. -/
structure Standing where
  participantId : String
  participantName : String
  participantCls : PerfCls
  totalPoints : Int
  results : List SRes
  finalPoints : Int
  tieBreakerScores : List Int
deriving DecidableEq, Repr

/-- The accumulation loop of `calculateOverallStandings` (lines 275-307):
results of unfinished events and unknown participants are skipped; the
first result of a participant creates their standing entry (insertion
order), every result appends `{eventId, points, isDropped:false}`. -/
def buildStandings (results : List Result) (participants : List Participant)
    (finishedIds : List String) : List (String × Standing) :=
  results.foldl (fun m result =>
    if finishedIds.contains result.eventId then
      match mapGetLast participants result.participantId with
      | none => m
      | some participant =>
        let st := match getKV m result.participantId with
          | some s => s
          | none =>
            { participantId := participant.id,
              participantName := participant.lastName ++ ", " ++ participant.firstName,
              participantCls := participant.perfCls,
              totalPoints := 0, results := [], finalPoints := 0, tieBreakerScores := [] }
        setKV m result.participantId
          { st with results := st.results ++ [{ eventId := result.eventId, points := result.points, isDropped := false }] }
    else m) []

/-- The tie-aware marking loop of the drop-score logic (lines 331-341):
`d` is the multiset of point values still to drop (the frequency map);
a result whose points still have a positive count is marked dropped and
the count decremented. -/
def markDrops : List Int → List SRes → List SRes
  | _, [] => []
  | d, r :: rest =>
      if 0 < d.count r.points then
        { r with isDropped := true } :: markDrops (d.erase r.points) rest
      else
        r :: markDrops d rest

/-- The per-standing processing body of `calculateOverallStandings`
(lines 309-353): reset drops, apply the drop-score rule, recompute totals
and tie-breaker scores. -/
def processStanding (dropScores : Int) (finishedEventCount : Nat) (st : Standing) : Standing :=
  let results0 := st.results.map (fun r => { r with isDropped := false })
  let attendedEventCount := results0.length
  let missedEventCount : Int := (finishedEventCount : Int) - (attendedEventCount : Int)
  let scoresToDropFromAttended := max 0 (dropScores - missedEventCount)
  let results1 :=
    if 0 < scoresToDropFromAttended then
      let scoresToDropCount := min scoresToDropFromAttended (attendedEventCount : Int)
      if 0 < scoresToDropCount then
        let sortedForDropping := List.insertionSort (fun a b : SRes => a.points ≤ b.points) results0
        let resultsToDrop := sortedForDropping.take scoresToDropCount.toNat
        markDrops (resultsToDrop.map (·.points)) results0
      else results0
    else results0
  let totalPoints := (results1.map (·.points)).sum
  let pointsToDrop := ((results1.filter (·.isDropped)).map (·.points)).sum
  { st with
    results := results1,
    totalPoints := totalPoints,
    finalPoints := totalPoints - pointsToDrop,
    tieBreakerScores := List.insertionSort (fun a b : Int => b ≤ a) (results1.map (·.points)) }

/-- The tie-breaker loop of the standings comparator (lines 363-369):
first index where the padded descending score lists differ decides;
`none` means the loop fell through. -/
def cmpScores : List Int → List Int → Option Int
  | [], [] => none
  | [], b :: bs => if b ≠ 0 then some b else cmpScores [] bs
  | a :: as', [] => if a ≠ 0 then some (0 - a) else cmpScores as' []
  | a :: as', b :: bs => if b ≠ a then some (b - a) else cmpScores as' bs

/-- `localeCompare`, modelled as lexicographic string comparison. -/
def cmpStr (a b : String) : Int :=
  if a < b then -1 else if b < a then 1 else 0

/-- The standings comparator (lines 358-372). -/
def cmpStanding (a b : Standing) : Int :=
  if a.finalPoints ≠ b.finalPoints then b.finalPoints - a.finalPoints
  else match cmpScores a.tieBreakerScores b.tieBreakerScores with
    | some d => d
    | none => cmpStr a.participantName b.participantName

instance : DecidableRel (fun a b : Standing => cmpStanding a b ≤ 0) := fun _ _ =>
  inferInstanceAs (Decidable (_ ≤ _))

/-- `calculateOverallStandings` from `scoringService.ts` (lines 264-390);
the returned `Record<GroupLabel, Standing[]>` is modelled as a function
from `GroupLabel` to the group's list. -/
def calculateOverallStandings (results : List Result) (participants : List Participant)
    (events : List Event) (settings : Settings) : GroupLabel → List Standing :=
  let finishedIds := ((events.filter (·.finished)).map (·.id)).dedup
  let built := buildStandings results participants finishedIds
  let processed := (built.map Prod.snd).map (processStanding settings.dropScores finishedIds.length)
  let sortedStandings := List.insertionSort (fun a b : Standing => cmpStanding a b ≤ 0) processed
  fun g => sortedStandings.filterMap (fun st =>
    match mapGetLast participants st.participantId with
    | some p => if getParticipantGroup p = g then some st else none
    | none => none)

/-- The identity-and-input fields of a result: everything except the
recomputed `points` and `rankOverall` output fields. -/
def frameOf (r : Result) :
    String × String × String × Option Int × Option Int × Option Int × Bool × Bool × Bool :=
  (r.id, r.eventId, r.participantId, r.timeSeconds, r.winnerRank, r.finisherGroup,
    r.dnf, r.hasAeroBars, r.hasTTEquipment)

/-- The handicap-race points formula as the specification states it:
DNF or unknown participant scores 0, any other result scores
`max(1, base - 1)` in finisher group 2 and `max(1, base)` otherwise, plus
`winnerPoints[winnerRank-1]` exactly when `winnerRank` is set and within
bounds.  (Claim-side formula, compared against `handicapPointsFor`.) -/
def handicapPointsSpec (participants : List Participant) (settings : Settings)
    (result : Result) : Int :=
  match mapGetLast participants result.participantId with
  | none => 0
  | some participant =>
    if result.dnf then 0
    else
      let base := settings.handicapBasePoints participant.perfCls
      let fp := if result.finisherGroup = some 2 then max 1 (base - 1) else max 1 base
      match result.winnerRank with
      | some w =>
          if 1 ≤ w ∧ w ≤ (settings.winnerPoints.length : Int)
            then fp + settings.winnerPoints.getD (w - 1).toNat 0 else fp
      | none => fp

/-! ### Concrete sample data (used by counterexamples and witnesses) -/

/-- Sample settings: winner bonus `[3,2,1]`, the default base points,
every handicap rule disabled. -/
def sEx : Settings where
  timeTrialBonuses := { aeroBars := { enabled := false, seconds := 30 },
                        ttEquipment := { enabled := false, seconds := 30 } }
  winnerPoints := [3, 2, 1]
  handicapBasePoints := fun c => match c with
    | .A => 10
    | .B => 8
    | .C => 6
    | .D => 4
  dropScores := 1
  handicapSettings := { femaleRule := { enabled := false, seconds := -60 },
                        ageBrackets := [],
                        hobbyRule := { enabled := false, seconds := -30 } }

/-- Sample settings with every handicap category enabled and two
overlapping age brackets. -/
def sAllOn : Settings :=
  { sEx with
    handicapSettings := { femaleRule := { enabled := true, seconds := -60 },
                          ageBrackets := [{ enabled := true, seconds := -20, minAge := 30, maxAge := 40 },
                                          { enabled := true, seconds := -50, minAge := 30, maxAge := 50 }],
                          hobbyRule := { enabled := true, seconds := -30 } },
    timeTrialBonuses := { aeroBars := { enabled := true, seconds := 30 },
                          ttEquipment := { enabled := true, seconds := 25 } } }

/-- Sample participant constructor. -/
def mkParticipant (i : String) (c : PerfCls) : Participant :=
  { id := i, firstName := "F", lastName := "L", birthYear := 1990, perfCls := c, gender := .male }

/-- Sample result constructor (not DNF, no bonuses, no groups). -/
def mkResult (i pid : String) (t : Option Int) : Result :=
  { id := i, eventId := "e", participantId := pid, rankOverall := none, timeSeconds := t,
    winnerRank := none, finisherGroup := none, dnf := false, points := 0,
    hasAeroBars := false, hasTTEquipment := false }

/-- A finished individual time trial. -/
def evEZF : Event := { id := "e", eventType := .EZF, finished := true, season := 2025 }

/-- A finished team time trial. -/
def evMZF : Event := { id := "e", eventType := .MZF, finished := true, season := 2025 }

/-- Three sample teams. -/
def teamsEx : List Team := [⟨"tA", "e", "A"⟩, ⟨"tB", "e", "B"⟩, ⟨"tC", "e", "C"⟩]

/-- Two members per sample team. -/
def teamMembersEx : List TeamMember :=
  [⟨"m1", "tA", "a1", false⟩, ⟨"m2", "tA", "a2", false⟩,
   ⟨"m3", "tB", "b1", false⟩, ⟨"m4", "tB", "b2", false⟩,
   ⟨"m5", "tC", "c1", false⟩, ⟨"m6", "tC", "c2", false⟩]

/-- The six team riders. -/
def participantsEx : List Participant :=
  [mkParticipant "a1" .C, mkParticipant "a2" .C, mkParticipant "b1" .C,
   mkParticipant "b2" .C, mkParticipant "c1" .C, mkParticipant "c2" .C]

/-- Rider times giving the three teams adjusted times 200, 200, 210
(each team's base time is its second-slowest = faster of its two riders,
and all handicaps are disabled in `sEx`). -/
def resultsMZFEx : List Result :=
  [mkResult "r1" "a1" (some 200), mkResult "r2" "a2" (some 999),
   mkResult "r3" "b1" (some 200), mkResult "r4" "b2" (some 999),
   mkResult "r5" "c1" (some 210), mkResult "r6" "c2" (some 999)]

/-- A single eligible time-trial result with no manually assigned
`winnerRank`. -/
def resultTTEx : Result := mkResult "x" "p1" (some 100)

/-- The output record for `resultTTEx`: ranked 1st with the automatic
winner bonus. -/
def resultTTExOut : Result := { resultTTEx with points := 11, rankOverall := some 1 }

/-- A handicap-race result: class-D participant, finisher group 2, not
DNF, no winner rank. -/
def resultHcpEx : Result := { mkResult "rd" "pd" none with finisherGroup := some 2 }

/-- Two results sharing one result id `"x"` but with distinct
participants. -/
def resultsDupId : List Result :=
  [mkResult "x" "p1" (some 100), mkResult "x" "p2" (some 200)]

/-- Four finished events of a season. -/
def eventsSeason : List Event :=
  [⟨"e1", .EZF, true, 2025⟩, ⟨"e2", .EZF, true, 2025⟩,
   ⟨"e3", .EZF, true, 2025⟩, ⟨"e4", .EZF, true, 2025⟩]

/-- A scored season result. -/
def mkSeasonResult (i eid pid : String) (pts : Int) : Result :=
  { mkResult i pid (some 100) with eventId := eid, points := pts }

/-- Season results: participant `p1` attended all four events (lowest
score 6 at `e2`), participant `p2` attended three of the four. -/
def resultsSeason : List Result :=
  [mkSeasonResult "q1" "e1" "p1" 8, mkSeasonResult "q2" "e2" "p1" 6,
   mkSeasonResult "q3" "e3" "p1" 7, mkSeasonResult "q4" "e4" "p1" 9,
   mkSeasonResult "q5" "e1" "p2" 5, mkSeasonResult "q6" "e2" "p2" 5,
   mkSeasonResult "q7" "e3" "p2" 10]

/-- A woman in class B aged 35 in 2025 with both equipment flags, matching
all four handicap categories of `sAllOn`. -/
def participantAllOn : Participant :=
  { id := "pw", firstName := "A", lastName := "B", birthYear := 1990, perfCls := .B, gender := .female }

/-- A result with both equipment flags set. -/
def resultAllOn : Result :=
  { mkResult "ra" "pw" (some 100) with hasAeroBars := true, hasTTEquipment := true }

/-- `resultAllOn` with every scoring-irrelevant field changed but the two
equipment flags kept. -/
def resultAllOn2 : Result :=
  { resultAllOn with
    id := "rb", timeSeconds := some 4711, dnf := true,
    winnerRank := some 2, finisherGroup := some 1, points := 99, rankOverall := some 7 }

/-- The two participants of the season example. -/
def participantsSeason : List Participant :=
  [mkParticipant "p1" .C, mkParticipant "p2" .C]

/-- The computed standing of participant `p1` in the season example:
attended all 4 finished events, one drop (the 6 points at `e2`),
`finalPoints = 30 - 6 = 24`. -/
def standingP1 : Standing :=
  { participantId := "p1", participantName := "L, F", participantCls := .C,
    totalPoints := 30,
    results := [{ eventId := "e1", points := 8, isDropped := false },
                { eventId := "e2", points := 6, isDropped := true },
                { eventId := "e3", points := 7, isDropped := false },
                { eventId := "e4", points := 9, isDropped := false }],
    finalPoints := 24, tieBreakerScores := [9, 8, 7, 6] }

/-! ### Association-list lemmas -/

theorem getKV_setKV_self {β : Type} (m : List (String × β)) (k : String) (v : β) :
    getKV (setKV m k v) k = some v := by
  induction m with
  | nil => simp [setKV, getKV]
  | cons e rest ih =>
      obtain ⟨k1, w⟩ := e
      by_cases h : k1 = k
      · simp [setKV, h, getKV]
      · simp [setKV, h, getKV, ih]

theorem getKV_setKV_ne {β : Type} (m : List (String × β)) (k k' : String) (v : β)
    (h : k' ≠ k) : getKV (setKV m k v) k' = getKV m k' := by
  induction m with
  | nil =>
      rw [setKV, getKV, getKV, if_neg (fun he : k = k' => h he.symm), getKV]
  | cons e rest ih =>
      obtain ⟨k1, w⟩ := e
      by_cases he : k1 = k
      · subst he
        rw [setKV, if_pos rfl, getKV, getKV, if_neg (fun hx : k1 = k' => h hx.symm),
          if_neg (fun hx : k1 = k' => h hx.symm)]
      · rw [setKV, if_neg he, getKV, getKV]
        by_cases he' : k1 = k'
        · rw [if_pos he', if_pos he']
        · rw [if_neg he', if_neg he', ih]

theorem mem_setKV {β : Type} {m : List (String × β)} {k : String} {v : β} {e : String × β}
    (h : e ∈ setKV m k v) : e = (k, v) ∨ e ∈ m := by
  induction m with
  | nil => simpa [setKV] using h
  | cons f rest ih =>
      obtain ⟨k1, w⟩ := f
      by_cases hf : k1 = k
      · rw [setKV, if_pos hf] at h
        rcases List.mem_cons.1 h with h | h
        · exact Or.inl h
        · exact Or.inr (List.mem_cons_of_mem _ h)
      · rw [setKV, if_neg hf] at h
        rcases List.mem_cons.1 h with h | h
        · exact Or.inr (h ▸ List.mem_cons_self _ rest)
        · rcases ih h with h' | h'
          · exact Or.inl h'
          · exact Or.inr (List.mem_cons_of_mem _ h')

theorem mem_values_setKV {β : Type} {m : List (String × β)} {k : String} {v : β} {x : β}
    (h : x ∈ (setKV m k v).map Prod.snd) : x = v ∨ x ∈ m.map Prod.snd := by
  rcases List.mem_map.1 h with ⟨e, he, hx⟩
  rcases mem_setKV he with h' | h'
  · exact Or.inl (by rw [← hx, h'])
  · exact Or.inr (hx ▸ List.mem_map_of_mem Prod.snd h')

theorem setKV_of_notMem {β : Type} (m : List (String × β)) (k : String) (v : β)
    (h : k ∉ m.map Prod.fst) : setKV m k v = m ++ [(k, v)] := by
  induction m with
  | nil => simp [setKV]
  | cons e rest ih =>
      obtain ⟨k1, w⟩ := e
      rw [List.map_cons, List.mem_cons] at h
      push_neg at h
      have h1 : ¬k1 = k := fun hx => h.1 (hx.symm)
      simp [setKV, h1, ih h.2]

theorem getKV_mem {β : Type} {m : List (String × β)} {k : String} {v : β}
    (h : getKV m k = some v) : (k, v) ∈ m := by
  induction m with
  | nil => simp [getKV] at h
  | cons e rest ih =>
      obtain ⟨k1, w⟩ := e
      by_cases he : k1 = k
      · rw [getKV, if_pos he] at h
        have hw : w = v := Option.some.inj h
        subst he; subst hw
        exact List.mem_cons_self _ rest
      · rw [getKV, if_neg he] at h
        exact List.mem_cons_of_mem _ (ih h)

theorem getKV_eq_none_of_notMem {β : Type} {m : List (String × β)} {k : String}
    (h : k ∉ m.map Prod.fst) : getKV m k = none := by
  induction m with
  | nil => rfl
  | cons e rest ih =>
      obtain ⟨k1, w⟩ := e
      rw [List.map_cons, List.mem_cons] at h
      push_neg at h
      have h1 : ¬k1 = k := fun hx => h.1 (hx.symm)
      simp [getKV, h1, ih h.2]

theorem map_snd_setKV_of_getKV {β γ : Type} (φ : β → γ) {m : List (String × β)}
    {k : String} {v w : β} (hget : getKV m k = some w) (hφ : φ v = φ w) :
    (setKV m k v).map (fun e => φ e.2) = m.map (fun e => φ e.2) := by
  induction m with
  | nil => simp [getKV] at hget
  | cons e rest ih =>
      obtain ⟨k1, w1⟩ := e
      by_cases he : k1 = k
      · rw [getKV, if_pos he] at hget
        have hw : w1 = w := Option.some.inj hget
        subst hw
        simp [setKV, he, hφ]
      · rw [getKV, if_neg he] at hget
        simp [setKV, he, ih hget]

/-! ### Fold lemmas -/

theorem foldl_values_pred {β γ : Type} (P : β → Prop)
    (step : List (String × β) → γ → List (String × β))
    (hstep : ∀ m a, (∀ x ∈ m.map Prod.snd, P x) → ∀ x ∈ (step m a).map Prod.snd, P x) :
    ∀ (l : List γ) (m : List (String × β)), (∀ x ∈ m.map Prod.snd, P x) →
      ∀ x ∈ (l.foldl step m).map Prod.snd, P x
  | [], _, hm => hm
  | a :: l, m, hm => foldl_values_pred P step hstep l (step m a) (hstep m a hm)

theorem foldl_entries_sub {β γ : Type} (step : List (String × β) → γ → List (String × β))
    (R : γ → String × β → Prop)
    (hstep : ∀ m a e, e ∈ step m a → e ∈ m ∨ R a e) :
    ∀ (l : List γ) (m : List (String × β)) (e : String × β),
      e ∈ l.foldl step m → e ∈ m ∨ ∃ a ∈ l, R a e := by
  intro l
  induction l with
  | nil => intro m e he; exact Or.inl he
  | cons a l ih =>
      intro m e he
      rcases ih (step m a) e he with h | ⟨b, hb, hR⟩
      · rcases hstep m a e h with h' | h'
        · exact Or.inl h'
        · exact Or.inr ⟨a, List.mem_cons_self a l, h'⟩
      · exact Or.inr ⟨b, List.mem_cons_of_mem a hb, hR⟩

theorem foldl_setKV_eq_append {β γ : Type} (key : γ → String) (f : γ → β) :
    ∀ (l : List γ) (m : List (String × β)),
      (∀ a ∈ l, key a ∉ m.map Prod.fst) → (l.map key).Nodup →
      l.foldl (fun m a => setKV m (key a) (f a)) m = m ++ l.map (fun a => (key a, f a)) := by
  intro l
  induction l with
  | nil => intro m _ _; simp
  | cons a l ih =>
      intro m hdisj hnd
      have hka : key a ∉ m.map Prod.fst := hdisj a (List.mem_cons_self a l)
      simp only [List.foldl_cons, setKV_of_notMem m (key a) (f a) hka]
      have hnd2 : (∀ x ∈ l, ¬key x = key a) ∧ (l.map key).Nodup := by simpa using hnd
      rw [ih (m ++ [(key a, f a)])]
      · simp
      · intro b hb
        simp only [List.map_append, List.mem_append]
        push_neg
        refine ⟨hdisj b (List.mem_cons_of_mem a hb), ?_⟩
        simp only [List.map_cons, List.map_nil, List.mem_singleton]
        exact fun hc => hnd2.1 b hb hc
      · exact hnd2.2

theorem getKV_map_key {β γ : Type} (key : γ → String) (f : γ → β) :
    ∀ (l : List γ), (l.map key).Nodup → ∀ a ∈ l,
      getKV (l.map (fun a => (key a, f a))) (key a) = some (f a) := by
  intro l
  induction l with
  | nil => intro _ a ha; simp at ha
  | cons b l ih =>
      intro hnd a ha
      have hnd' : (∀ x ∈ l, ¬key x = key b) ∧ (l.map key).Nodup := by simpa using hnd
      rcases List.mem_cons.1 ha with h | h
      · subst h
        simp [getKV]
      · have hne : ¬key b = key a := fun hc => hnd'.1 a h hc.symm
        simp only [List.map_cons, getKV, if_neg hne]
        exact ih hnd'.2 a h

/-! ### Drop-score lemmas -/

theorem markDrops_map_points : ∀ (d : List Int) (l : List SRes),
    (markDrops d l).map (·.points) = l.map (·.points)
  | _, [] => rfl
  | d, r :: rest => by
      by_cases h : 0 < d.count r.points
      · simp [markDrops, h, markDrops_map_points (d.erase r.points) rest]
      · simp [markDrops, h, markDrops_map_points d rest]

theorem markDrops_length (d : List Int) (l : List SRes) :
    (markDrops d l).length = l.length := by
  have := congrArg List.length (markDrops_map_points d l)
  simpa using this

theorem markDrops_count : ∀ (d : List Int) (l : List SRes),
    (∀ r ∈ l, r.isDropped = false) →
    (∀ v, d.count v ≤ (l.map (·.points)).count v) →
    ((markDrops d l).filter (·.isDropped)).length = d.length
  | d, [], _, hsub => by
      have hd : d = [] := by
        refine List.eq_nil_iff_forall_not_mem.2 (fun v hv => ?_)
        have h1 := List.count_pos_iff.2 hv
        have h2 := hsub v
        simp only [List.map_nil, List.count_nil] at h2
        omega
      simp [hd, markDrops]
  | d, r :: rest, hfalse, hsub => by
      have hfalse' : ∀ x ∈ rest, x.isDropped = false :=
        fun x hx => hfalse x (List.mem_cons_of_mem r hx)
      by_cases h : 0 < d.count r.points
      · have hmem : r.points ∈ d := List.count_pos_iff.1 h
        have hlen : (d.erase r.points).length = d.length - 1 :=
          List.length_erase_of_mem hmem
        have hdpos : 0 < d.length := List.length_pos.2 (List.ne_nil_of_mem hmem)
        have hsub' : ∀ v, (d.erase r.points).count v ≤ (rest.map (·.points)).count v := by
          intro v
          have h1 := hsub v
          rw [List.count_erase]
          simp only [List.map_cons, List.count_cons] at h1 ⊢
          by_cases hv : r.points = v <;> simp [hv] at h1 ⊢ <;> omega
        have ih := markDrops_count (d.erase r.points) rest hfalse' hsub'
        simp only [markDrops, if_pos h, List.filter_cons]
        simp [ih, hlen]
        omega
      · have hc : d.count r.points = 0 := by omega
        have hsub' : ∀ v, d.count v ≤ (rest.map (·.points)).count v := by
          intro v
          have h1 := hsub v
          simp only [List.map_cons, List.count_cons] at h1
          by_cases hv : v = r.points
          · rw [hv, hc]; omega
          · have : ¬(r.points == v) = true := by
              simp
              exact fun hx => hv hx.symm
            simp [this] at h1
            omega
        have ih := markDrops_count d rest hfalse' hsub'
        have hr : r.isDropped = false := hfalse r (List.mem_cons_self r rest)
        simp only [markDrops, if_neg h, List.filter_cons, hr]
        simpa using ih

/-- The drop-count and final-points bookkeeping of `processStanding`:
the number of results marked dropped is exactly
`min (max 0 (dropScores - missed)) attended`, and `finalPoints` is the
total minus the dropped sum. -/
theorem processStanding_spec (ds : Int) (F : Nat) (st : Standing) :
    (((processStanding ds F st).results.filter (·.isDropped)).length : Int) =
      min (max 0 (ds - ((F : Int) - ((processStanding ds F st).results.length : Int))))
        ((processStanding ds F st).results.length : Int)
    ∧ (processStanding ds F st).finalPoints =
        ((processStanding ds F st).results.map (·.points)).sum -
          (((processStanding ds F st).results.filter (·.isDropped)).map (·.points)).sum := by
  constructor
  · set results0 := st.results.map (fun r => { r with isDropped := false }) with hres0
    have hfalse : ∀ r ∈ results0, r.isDropped = false := by
      intro r hr
      rcases List.mem_map.1 hr with ⟨x, _, hx⟩
      rw [← hx]
    set A := results0.length with hA
    set n := max 0 (ds - ((F : Int) - (A : Int))) with hn
    show (((processStanding ds F st).results.filter (·.isDropped)).length : Int) = _
    by_cases h1 : 0 < n
    · set k := min n (A : Int) with hk
      by_cases h2 : 0 < k
      · -- the marking branch
        set sorted := List.insertionSort (fun a b : SRes => a.points ≤ b.points) results0 with hsorted
        set d := (sorted.take k.toNat).map (·.points) with hd
        have hperm : sorted.Perm results0 :=
          List.perm_insertionSort (fun a b : SRes => a.points ≤ b.points) results0
        have hlenS : sorted.length = A := hperm.length_eq
        have hkA : k ≤ (A : Int) := min_le_right _ _
        have hdlen : d.length = k.toNat := by
          rw [hd, List.length_map, List.length_take, hlenS]
          omega
        have hsub : ∀ v, d.count v ≤ (results0.map (·.points)).count v := by
          intro v
          have hsl : (sorted.take k.toNat).Sublist sorted := List.take_sublist _ _
          have h3 : d.count v ≤ (sorted.map (·.points)).count v :=
            (hsl.map (·.points)).count_le v
          have h4 : (sorted.map (·.points)).count v = (results0.map (·.points)).count v :=
            (hperm.map (·.points)).count_eq v
          omega
        have hcount := markDrops_count d results0 hfalse hsub
        have hproc : (processStanding ds F st).results = markDrops d results0 := by
          simp only [processStanding, ← hres0, ← hn, ← hA]
          rw [if_pos h1, if_pos (by rw [← hk]; exact h2)]
        rw [hproc, markDrops_length, hcount, hdlen, ← hA, ← hn, ← hk]
        omega
      · -- k ≤ 0 forces A = 0
        have hA0 : A = 0 := by
          simp only [hk] at h2
          omega
        have hproc : (processStanding ds F st).results = results0 := by
          simp only [processStanding, ← hres0, ← hn, ← hA]
          rw [if_pos h1, if_neg (by rw [← hk]; exact h2)]
        have hnil : results0 = [] := List.length_eq_zero.1 hA0
        rw [hproc, hnil]
        simp
    · -- no drops at all
      have hn0 : n = 0 := by
        have : 0 ≤ n := le_max_left 0 _
        omega
      have hproc : (processStanding ds F st).results = results0 := by
        simp only [processStanding, ← hres0, ← hn, ← hA]
        rw [if_neg h1]
      have hfe : (processStanding ds F st).results.filter (·.isDropped) = [] := by
        rw [hproc]
        exact List.filter_eq_nil_iff.2 (fun r hr => by simp [hfalse r hr])
      rw [hfe, hproc, ← hA, ← hn]
      simp only [List.length_nil, Nat.cast_zero]
      omega
  · rfl

/-- Every standing in the grouped output of `calculateOverallStandings`
is some processed standing. -/
theorem mem_overallStandings {results : List Result} {participants : List Participant}
    {events : List Event} {settings : Settings} {g : GroupLabel} {st : Standing}
    (h : st ∈ calculateOverallStandings results participants events settings g) :
    ∃ st0, st = processStanding settings.dropScores
      ((((events.filter (·.finished)).map (·.id)).dedup).length) st0 := by
  simp only [calculateOverallStandings] at h
  rcases List.mem_filterMap.1 h with ⟨a, ha, hfa⟩
  have hst : st = a := by
    rcases hmg : mapGetLast participants a.participantId with _ | p
    · rw [hmg] at hfa
      simp at hfa
    · rw [hmg] at hfa
      by_cases hg : getParticipantGroup p = g
      · simp [hg] at hfa
        exact hfa.symm
      · simp [hg] at hfa
  subst hst
  have h2 : st ∈ ((buildStandings results participants
      (((events.filter (·.finished)).map (·.id)).dedup)).map Prod.snd).map
        (processStanding settings.dropScores
          ((((events.filter (·.finished)).map (·.id)).dedup).length)) :=
    (List.mem_insertionSort (fun a b : Standing => cmpStanding a b ≤ 0)).1 ha
  rcases List.mem_map.1 h2 with ⟨st0, _, heq⟩
  exact ⟨st0, heq.symm⟩

/-- C5: in `computeStandings`, every participant appearing in the grouped
output has exactly `min (max 0 (dropScores - (finishedEventCount -
attended))) attended` of their per-event results marked `isDropped`, and
`finalPoints` is the sum of all attended points minus the sum of the
dropped points. -/
theorem C5_drop_count (results : List Result) (participants : List Participant)
    (events : List Event) (settings : Settings) (g : GroupLabel) (st : Standing)
    (hmem : st ∈ calculateOverallStandings results participants events settings g) :
    ((st.results.filter (·.isDropped)).length : Int) =
      min (max 0 (settings.dropScores -
          (((((events.filter (·.finished)).map (·.id)).dedup).length : Int) -
            (st.results.length : Int))))
        ((st.results.length : Int))
    ∧ st.finalPoints =
        (st.results.map (·.points)).sum -
          ((st.results.filter (·.isDropped)).map (·.points)).sum := by
  rcases mem_overallStandings hmem with ⟨st0, rfl⟩
  exact processStanding_spec settings.dropScores _ st0

/-! ### Generic auxiliary lemmas -/

theorem foldl_pres_mem {α β : Type} (P : β → Prop) (step : β → α → β) :
    ∀ (l : List α), (∀ m a, a ∈ l → P m → P (step m a)) → ∀ m, P m → P (l.foldl step m) := by
  intro l
  induction l with
  | nil => intro _ m h; exact h
  | cons a l ih =>
      intro hstep m hm
      exact ih (fun m b hb => hstep m b (List.mem_cons_of_mem a hb)) _
        (hstep m a (List.mem_cons_self a l) hm)

theorem five_le_placement (rank : Int) : 5 ≤ getPlacementPoints rank := by
  unfold getPlacementPoints
  split_ifs <;> omega

theorem getD_zero_nonneg : ∀ (l : List Int) (i : Nat), (∀ x ∈ l, 0 ≤ x) → 0 ≤ l.getD i 0
  | [], _, _ => by simp [List.getD]
  | x :: xs, 0, h => by simpa using h x (List.mem_cons_self x xs)
  | x :: xs, i + 1, h => by
      simpa [List.getD] using
        getD_zero_nonneg xs i (fun y hy => h y (List.mem_cons_of_mem x hy))

theorem rankedFinishersTT_fst_mem {event : Event} {eventResults : List Result}
    {participants : List Participant} {settings : Settings} {rr : Result × Int}
    (h : rr ∈ rankedFinishersTT event eventResults participants settings) :
    rr.1 ∈ eventResults := by
  simp only [rankedFinishersTT] at h
  rcases List.mem_filterMap.1 h with ⟨r, hr, heq⟩
  rcases hmg : mapGetLast participants r.participantId with _ | p
  · rw [hmg] at heq
    simp at heq
  · rw [hmg] at heq
    have hr1 : rr.1 = r := by
      have := Option.some.inj heq
      rw [← this]
    rw [hr1]
    exact List.mem_of_mem_filter hr

theorem sortedFinishersTT_fst_mem {event : Event} {eventResults : List Result}
    {participants : List Participant} {settings : Settings} {iv : Nat × (Result × Int)}
    (h : iv ∈ (sortedFinishersTT event eventResults participants settings).enum) :
    iv.2.1 ∈ eventResults := by
  have h1 : iv.2 ∈ sortedFinishersTT event eventResults participants settings :=
    List.snd_mem_of_mem_enum h
  have h2 : iv.2 ∈ rankedFinishersTT event eventResults participants settings :=
    (List.mem_insertionSort (fun a b : Result × Int => a.2 ≤ b.2)).1 h1
  exact rankedFinishersTT_fst_mem h2

/-! ### Team-points characterisation -/

theorem teamPointsMZF_entries (event : Event) (eventResults : List Result) (teams : List Team)
    (teamMembers : List TeamMember) (participants : List Participant) (settings : Settings) :
    ∀ e ∈ teamPointsMZF event eventResults teams teamMembers participants settings,
      ∃ it ∈ (rankedTeamsMZF event eventResults teams teamMembers participants settings).enum,
        it.2.adjustedTime ≠ none ∧ e.1 = it.2.id ∧
          e.2 = getPlacementPoints ((it.1 : Int) + 1) +
            (if ((it.1 : Int) + 1) ≤ (settings.winnerPoints.length : Int)
              then settings.winnerPoints.getD it.1 0 else 0) := by
  intro e he
  have hsub := foldl_entries_sub
    (fun m it =>
      match it.2.adjustedTime with
      | none => m
      | some _ =>
        let rank : Int := (it.1 : Int) + 1
        let points := getPlacementPoints rank
        let points := if rank ≤ (settings.winnerPoints.length : Int)
          then points + settings.winnerPoints.getD it.1 0 else points
        setKV m it.2.id points)
    (fun it e => it.2.adjustedTime ≠ none ∧ e.1 = it.2.id ∧
      e.2 = getPlacementPoints ((it.1 : Int) + 1) +
        (if ((it.1 : Int) + 1) ≤ (settings.winnerPoints.length : Int)
          then settings.winnerPoints.getD it.1 0 else 0))
    (by
      intro m it f hf
      simp only at hf ⊢
      rcases hadj : it.2.adjustedTime with _ | t
      · simp only [hadj] at hf
        exact Or.inl hf
      · simp only [hadj] at hf
        rcases mem_setKV hf with h' | h'
        · refine Or.inr ⟨by simp [hadj], ?_, ?_⟩
          · rw [h']
          · rw [h']
            by_cases hc : ((it.1 : Int) + 1) ≤ (settings.winnerPoints.length : Int)
            · simp [hc]
            · simp [hc]
        · exact Or.inl h')
    ((rankedTeamsMZF event eventResults teams teamMembers participants settings).enum) [] e
    (by simpa [teamPointsMZF] using he)
  rcases hsub with h | ⟨a, ha, hR⟩
  · simp at h
  · exact ⟨a, ha, hR⟩

/-! ### Claim C2: winner bonus in the individual time trial -/

/-- C2 counterexample: a single eligible finisher with **no** manually
assigned `winnerRank` is ranked 1st and still receives the winner bonus
(`8 + winnerPoints[0] = 11` points instead of the bare placement points
`8`), so the bonus is not driven by the `winnerRank` field. -/
theorem C2_counterexample :
    (calculateTimeTrialPoints evEZF [resultTTEx] [mkParticipant "p1" .C] sEx).map
        (fun r => (r.points, r.rankOverall, r.winnerRank)) = [(11, some 1, none)]
    ∧ (11 : Int) ≠ getPlacementPoints 1 := by
  constructor
  · decide
  · decide

/-- C2 (amended): in the individual time-trial scorer the winner bonus is
driven automatically by the computed `rankOverall` and the manual
`winnerRank` field is ignored: every output result carrying rank `k` has
points `getPlacementPoints k` plus `winnerPoints[k-1]` exactly when
`k ≤ |winnerPoints|`. -/
theorem C2_bonus_from_rankOverall (event : Event) (eventResults : List Result)
    (participants : List Participant) (settings : Settings) :
    ∀ r ∈ calculateTimeTrialPoints event eventResults participants settings,
      ∀ k : Int, r.rankOverall = some k →
        r.points = getPlacementPoints k +
          (if k ≤ (settings.winnerPoints.length : Int)
            then settings.winnerPoints.getD (k - 1).toNat 0 else 0) := by
  intro r hr
  simp only [calculateTimeTrialPoints] at hr
  rcases List.mem_map.1 hr with ⟨e, he, hre⟩
  have hP := foldl_values_pred
    (fun x : Result => ∀ k : Int, x.rankOverall = some k →
      x.points = getPlacementPoints k +
        (if k ≤ (settings.winnerPoints.length : Int)
          then settings.winnerPoints.getD (k - 1).toNat 0 else 0))
    (ttStep settings)
    (by
      intro m iv hm x hx
      rcases mem_values_setKV hx with h' | h'
      · subst h'
        intro k hk
        have hk' : ((iv.1 : Int) + 1) = k := Option.some.inj hk
        simp only [ttPointsAt, ← hk']
        have ht : (((iv.1 : Int) + 1) - 1).toNat = iv.1 := by omega
        rw [ht]
        by_cases hc : ((iv.1 : Int) + 1) ≤ (settings.winnerPoints.length : Int)
        · rw [if_pos hc, if_pos hc]
        · rw [if_neg hc, if_neg hc]
          omega
      · exact hm x h')
    (sortedFinishersTT event eventResults participants settings).enum
    (initTTMap eventResults)
    (by
      exact foldl_values_pred
        (fun x : Result => ∀ k : Int, x.rankOverall = some k →
          x.points = getPlacementPoints k +
            (if k ≤ (settings.winnerPoints.length : Int)
              then settings.winnerPoints.getD (k - 1).toNat 0 else 0))
        (fun m r => setKV m r.id { r with points := if r.dnf then 0 else 1, rankOverall := none })
        (by
          intro m a hm x hx
          rcases mem_values_setKV hx with h' | h'
          · subst h'
            intro k hk
            simp at hk
          · exact hm x h')
        eventResults []
        (by intro x hx; simp at hx))
  have := hP (x := r) (by rw [← hre]; exact List.mem_map_of_mem Prod.snd he)
  exact this

/-- Witness for `C2_bonus_from_rankOverall`: the single finisher of the
counterexample event has rank 1 and points `8 + winnerPoints[0]`. -/
theorem C2_bonus_from_rankOverall_witness :
    resultTTExOut.points = getPlacementPoints 1 +
      (if (1 : Int) ≤ (sEx.winnerPoints.length : Int)
        then sEx.winnerPoints.getD ((1 : Int) - 1).toNat 0 else 0) :=
  C2_bonus_from_rankOverall evEZF [resultTTEx] [mkParticipant "p1" .C] sEx
    resultTTExOut (by decide) 1 (by decide)

/-- Witness for `C5_drop_count`: in the 4-event season example with
`dropScores = 1`, participant `p1` (attended all 4) drops exactly one
score and `finalPoints = 30 - 6 = 24`. -/
theorem C5_drop_count_witness :
    standingP1 ∈ calculateOverallStandings resultsSeason participantsSeason eventsSeason sEx
        GroupLabel.Ambitious
    ∧ ((standingP1.results.filter (·.isDropped)).length : Int) =
        min (max 0 (sEx.dropScores -
            ((((((eventsSeason.filter (·.finished)).map (·.id)).dedup).length : Nat) : Int) -
              (standingP1.results.length : Int))))
          ((standingP1.results.length : Int))
    ∧ standingP1.finalPoints =
        (standingP1.results.map (·.points)).sum -
          ((standingP1.results.filter (·.isDropped)).map (·.points)).sum :=
  ⟨by decide,
    C5_drop_count resultsSeason participantsSeason eventsSeason sEx GroupLabel.Ambitious
      standingP1 (by decide)⟩

/-! ### Claim C1: team ranking under ties -/

/-- C1 counterexample: three teams with adjusted times `[200, 200, 210]`
receive team points `[11, 10, 9]` — the leading tied pair does **not**
share rank 1 (which would give points `[11, 11, 9]`): the second tied team
receives the rank-2 winner bonus, so the tied teams' points differ. -/
theorem C1_counterexample :
    (rankedTeamsMZF evMZF resultsMZFEx teamsEx teamMembersEx participantsEx sEx).map
        (fun t => (t.id, t.adjustedTime)) =
      [("tA", some 200), ("tB", some 200), ("tC", some 210)]
    ∧ teamPointsMZF evMZF resultsMZFEx teamsEx teamMembersEx participantsEx sEx =
        [("tA", 11), ("tB", 10), ("tC", 9)]
    ∧ getKV (teamPointsMZF evMZF resultsMZFEx teamsEx teamMembersEx participantsEx sEx) "tA" ≠
        getKV (teamPointsMZF evMZF resultsMZFEx teamsEx teamMembersEx participantsEx sEx) "tB" :=
  ⟨by decide, by decide, by decide⟩

/-- C1 (amended): after sorting the teams ascending by adjusted time, rank
is the 1-based *sorted position* — ties do not share a rank — and every
entry of the team-points map is the placement points plus winner bonus of
that position, for a team with finite adjusted time. -/
theorem C1_rank_by_sorted_position (event : Event) (eventResults : List Result)
    (teams : List Team) (teamMembers : List TeamMember) (participants : List Participant)
    (settings : Settings) :
    ∀ e ∈ teamPointsMZF event eventResults teams teamMembers participants settings,
      ∃ it ∈ (rankedTeamsMZF event eventResults teams teamMembers participants settings).enum,
        it.2.adjustedTime ≠ none ∧ e.1 = it.2.id ∧
          e.2 = getPlacementPoints ((it.1 : Int) + 1) +
            (if ((it.1 : Int) + 1) ≤ (settings.winnerPoints.length : Int)
              then settings.winnerPoints.getD it.1 0 else 0) :=
  teamPointsMZF_entries event eventResults teams teamMembers participants settings

/-- Witness for `C1_rank_by_sorted_position`: the second tied team of the
counterexample (`tB`, 10 points) is priced at its sorted position. -/
theorem C1_rank_by_sorted_position_witness :
    ∃ it ∈ (rankedTeamsMZF evMZF resultsMZFEx teamsEx teamMembersEx participantsEx sEx).enum,
      it.2.adjustedTime ≠ none ∧ (("tB", (10 : Int)) : String × Int).1 = it.2.id ∧
        (("tB", (10 : Int)) : String × Int).2 = getPlacementPoints ((it.1 : Int) + 1) +
          (if ((it.1 : Int) + 1) ≤ (sEx.winnerPoints.length : Int)
            then sEx.winnerPoints.getD it.1 0 else 0) :=
  C1_rank_by_sorted_position evMZF resultsMZFEx teamsEx teamMembersEx participantsEx sEx
    ("tB", 10) (by decide)

/-! ### Claim C3: missing settings sections -/

/-- C3 (code bug): `calculateHandicap` dereferences
`settings.handicapSettings.gender.female.enabled` without any guard, so on
the app's own `getInitialSettings()` — whose object literal omits
`handicapSettings` — the first property read throws a `TypeError`
(modelled as `Except.error ()`), instead of treating the missing section
as disabled. -/
theorem C3_crash_on_initial_settings :
    calculateHandicapRT (mkParticipant "p1" .C) resultTTEx evEZF getInitialSettings =
      Except.error () := rfl

/-- When both optional sections are present, the runtime model of
`calculateHandicap` agrees with the total function on full settings. -/
theorem calculateHandicapRT_agrees (participant : Participant) (result : Result)
    (event : Event) (settings : Settings) :
    calculateHandicapRT participant result event
      { timeTrialBonuses := some settings.timeTrialBonuses,
        winnerPoints := settings.winnerPoints,
        handicapBasePoints := settings.handicapBasePoints,
        dropScores := settings.dropScores,
        handicapSettings := some settings.handicapSettings } =
      Except.ok (calculateHandicap participant result event settings) := rfl

/-! ### Claim C6: handicap additivity -/

theorem ageAdjustment_first (age : Int) :
    ∀ (pre post : List AgeHandicapRule) (bracket : AgeHandicapRule),
      (∀ b ∈ pre, ¬(b.enabled ∧ b.minAge ≤ age ∧ age ≤ b.maxAge)) →
      (bracket.enabled ∧ bracket.minAge ≤ age ∧ age ≤ bracket.maxAge) →
      ageAdjustment age (pre ++ bracket :: post) = bracket.seconds := by
  intro pre
  induction pre with
  | nil =>
      intro post bracket _ hb
      simp [ageAdjustment, hb]
  | cons b pre ih =>
      intro post bracket hpre hb
      have hnb := hpre b (List.mem_cons_self b pre)
      simp only [List.cons_append, ageAdjustment, if_neg hnb]
      exact ih post bracket (fun x hx => hpre x (List.mem_cons_of_mem b hx)) hb

theorem ite_add_shift (c : Prop) [Decidable c] (x s : Int) :
    (if c then x + s else x) = x + (if c then s else 0) := by
  split_ifs <;> simp

/-- C6: `computeHandicap` is the sum of its four adjustment categories
(gender, first matching age bracket, performance class, and the two
independent equipment penalties), and the age adjustment is the seconds of
the first enabled bracket containing the age — later matching brackets
contribute nothing. -/
theorem C6_handicap_additivity (participant : Participant) (result : Result) (event : Event)
    (settings : Settings) :
    calculateHandicap participant result event settings =
      (if settings.handicapSettings.femaleRule.enabled ∧ participant.gender = Gender.female
        then settings.handicapSettings.femaleRule.seconds else 0)
      + ageAdjustment (event.season - participant.birthYear) settings.handicapSettings.ageBrackets
      + (if settings.handicapSettings.hobbyRule.enabled ∧
            (participant.perfCls = PerfCls.A ∨ participant.perfCls = PerfCls.B)
          then settings.handicapSettings.hobbyRule.seconds else 0)
      + (if settings.timeTrialBonuses.aeroBars.enabled ∧ result.hasAeroBars
          then settings.timeTrialBonuses.aeroBars.seconds else 0)
      + (if settings.timeTrialBonuses.ttEquipment.enabled ∧ result.hasTTEquipment
          then settings.timeTrialBonuses.ttEquipment.seconds else 0)
    ∧ (∀ (pre post : List AgeHandicapRule) (bracket : AgeHandicapRule),
        settings.handicapSettings.ageBrackets = pre ++ bracket :: post →
        (∀ b ∈ pre, ¬(b.enabled ∧ b.minAge ≤ event.season - participant.birthYear ∧
            event.season - participant.birthYear ≤ b.maxAge)) →
        (bracket.enabled ∧ bracket.minAge ≤ event.season - participant.birthYear ∧
            event.season - participant.birthYear ≤ bracket.maxAge) →
        ageAdjustment (event.season - participant.birthYear)
            settings.handicapSettings.ageBrackets = bracket.seconds) := by
  constructor
  · simp only [calculateHandicap]
    rw [ite_add_shift, ite_add_shift, ite_add_shift, ite_add_shift]
    ring
  · intro pre post bracket heq hpre hb
    rw [heq]
    exact ageAdjustment_first _ pre post bracket hpre hb

/-- Witness for `C6_handicap_additivity`: a participant matching all four
categories scores the exact sum `-60 - 20 - 30 + 30 + 25 = -55`, and only
the first of the two matching age brackets applies. -/
theorem C6_handicap_additivity_witness :
    calculateHandicap participantAllOn resultAllOn evEZF sAllOn = -55
    ∧ ageAdjustment (evEZF.season - participantAllOn.birthYear)
        sAllOn.handicapSettings.ageBrackets =
        ({ enabled := true, seconds := -20, minAge := 30, maxAge := 40 } : AgeHandicapRule).seconds := by
  constructor
  · rw [(C6_handicap_additivity participantAllOn resultAllOn evEZF sAllOn).1]
    decide
  · exact (C6_handicap_additivity participantAllOn resultAllOn evEZF sAllOn).2
      [] [{ enabled := true, seconds := -50, minAge := 30, maxAge := 50 }]
      { enabled := true, seconds := -20, minAge := 30, maxAge := 40 }
      (by decide) (by decide) (by decide)

/-! ### Claim C7: handicap-race points -/

/-- C7: the handicap-race scorer maps every result to the claimed formula:
0 for DNF or unknown participant, otherwise `max(1, base - 1)` in finisher
group 2 and `max(1, base)` otherwise, plus the winner bonus exactly when
`winnerRank` is set and within bounds.  (The hypothesis pins `winnerRank`
to its TypeScript type `1 | 2 | 3`, i.e. at least 1.) -/
theorem C7_handicap_race_points (eventResults : List Result) (participants : List Participant)
    (settings : Settings)
    (hwf : ∀ r ∈ eventResults, ∀ w : Int, r.winnerRank = some w → 1 ≤ w) :
    calculateHandicapPoints eventResults participants settings =
      eventResults.map (fun r => { r with points := handicapPointsSpec participants settings r }) := by
  unfold calculateHandicapPoints
  apply List.map_congr_left
  intro r hr
  have key : handicapPointsFor participants settings r =
      handicapPointsSpec participants settings r := by
    unfold handicapPointsFor handicapPointsSpec
    rcases hmg : mapGetLast participants r.participantId with _ | p
    · by_cases hd : r.dnf <;> simp [hd]
    · by_cases hd : r.dnf
      · simp [hd]
      · rcases hwr : r.winnerRank with _ | w
        · simp [hd, hwr]
        · have h1 : 1 ≤ w := hwf r hr w hwr
          have hne : w ≠ 0 := by omega
          by_cases hc : w ≤ (settings.winnerPoints.length : Int)
          · simp [hd, hwr, hc, h1, hne]
          · simp [hd, hwr, hc]
  rw [key]

/-- Witness for `C7_handicap_race_points`: a non-DNF class-D participant in
finisher group 2 with base points 4 scores `max(1, 4 - 1) = 3`. -/
theorem C7_handicap_race_points_witness :
    calculateHandicapPoints [resultHcpEx] [mkParticipant "pd" .D] sEx =
      [{ resultHcpEx with points := 3 }] :=
  (C7_handicap_race_points [resultHcpEx] [mkParticipant "pd" .D] sEx
    (by
      intro r hr w hw
      rcases List.mem_singleton.1 hr with rfl
      simp [resultHcpEx, mkResult] at hw)).trans (by decide)

/-! ### Claim C10: handicap noninterference -/

/-- C10: `computeHandicap` reads only the `hasAeroBars` and
`hasTTEquipment` fields of the result — two results agreeing on these two
flags get the same handicap, whatever their other fields. -/
theorem C10_handicap_reads_only_flags (participant : Participant) (event : Event)
    (settings : Settings) (r1 r2 : Result)
    (hA : r1.hasAeroBars = r2.hasAeroBars) (hT : r1.hasTTEquipment = r2.hasTTEquipment) :
    calculateHandicap participant r1 event settings =
      calculateHandicap participant r2 event settings := by
  unfold calculateHandicap
  rw [hA, hT]

/-- Witness for `C10_handicap_reads_only_flags`: two results differing in
time, DNF, winner rank, finisher group and points — but agreeing on the
equipment flags — get equal handicaps. -/
theorem C10_handicap_reads_only_flags_witness :
    resultAllOn.hasAeroBars = resultAllOn2.hasAeroBars
    ∧ resultAllOn.hasTTEquipment = resultAllOn2.hasTTEquipment
    ∧ resultAllOn.timeSeconds ≠ resultAllOn2.timeSeconds
    ∧ resultAllOn.dnf ≠ resultAllOn2.dnf
    ∧ resultAllOn.winnerRank ≠ resultAllOn2.winnerRank
    ∧ resultAllOn.finisherGroup ≠ resultAllOn2.finisherGroup
    ∧ resultAllOn.points ≠ resultAllOn2.points
    ∧ calculateHandicap participantAllOn resultAllOn evEZF sAllOn =
        calculateHandicap participantAllOn resultAllOn2 evEZF sAllOn :=
  ⟨rfl, rfl, by decide, by decide, by decide, by decide, by decide,
    C10_handicap_reads_only_flags participantAllOn evEZF sAllOn resultAllOn resultAllOn2 rfl rfl⟩

/-! ### Claim C9: points are never negative -/

theorem ttPointsAt_nonneg (settings : Settings) (i : Nat)
    (hwp : ∀ x ∈ settings.winnerPoints, 0 ≤ x) : 0 ≤ ttPointsAt settings i := by
  simp only [ttPointsAt]
  have h5 := five_le_placement ((i : Int) + 1)
  have hg := getD_zero_nonneg settings.winnerPoints i hwp
  split_ifs <;> omega

theorem handicapPointsFor_nonneg (participants : List Participant) (settings : Settings)
    (r : Result) (hwp : ∀ x ∈ settings.winnerPoints, 0 ≤ x) :
    0 ≤ handicapPointsFor participants settings r := by
  unfold handicapPointsFor
  rcases mapGetLast participants r.participantId with _ | p
  · by_cases hd : r.dnf <;> simp [hd]
  · by_cases hd : r.dnf
    · simp [hd]
    · have hbase : (1 : Int) ≤ (if r.finisherGroup = some 2
          then max 1 (settings.handicapBasePoints p.perfCls - 1)
          else max 1 (settings.handicapBasePoints p.perfCls)) := by
        split_ifs
        · exact le_max_left 1 _
        · exact le_max_left 1 _
      rcases hwr : r.winnerRank with _ | w
      · simp only [hd, Bool.false_eq_true, if_false, hwr]
        omega
      · have hg := getD_zero_nonneg settings.winnerPoints (w - 1).toNat hwp
        simp only [hd, Bool.false_eq_true, if_false, hwr]
        split_ifs <;> omega

theorem teamPointsMZF_value_nonneg (event : Event) (eventResults : List Result)
    (teams : List Team) (teamMembers : List TeamMember) (participants : List Participant)
    (settings : Settings) (hwp : ∀ x ∈ settings.winnerPoints, 0 ≤ x) :
    ∀ e ∈ teamPointsMZF event eventResults teams teamMembers participants settings, 0 ≤ e.2 := by
  intro e he
  rcases teamPointsMZF_entries event eventResults teams teamMembers participants settings e he
    with ⟨it, _, _, _, hval⟩
  rw [hval]
  have h5 := five_le_placement ((it.1 : Int) + 1)
  have hg := getD_zero_nonneg settings.winnerPoints it.1 hwp
  split_ifs <;> omega

theorem calculateTimeTrialPoints_nonneg (event : Event) (eventResults : List Result)
    (participants : List Participant) (settings : Settings)
    (hwp : ∀ x ∈ settings.winnerPoints, 0 ≤ x) :
    ∀ r ∈ calculateTimeTrialPoints event eventResults participants settings, 0 ≤ r.points := by
  intro r hr
  simp only [calculateTimeTrialPoints] at hr
  refine foldl_values_pred (fun x : Result => 0 ≤ x.points) (ttStep settings)
    (by
      intro m iv hm x hx
      rcases mem_values_setKV hx with h' | h'
      · subst h'
        exact ttPointsAt_nonneg settings iv.1 hwp
      · exact hm x h')
    (sortedFinishersTT event eventResults participants settings).enum
    (initTTMap eventResults)
    ?_ r hr
  exact foldl_values_pred (fun x : Result => 0 ≤ x.points)
    (fun m r => setKV m r.id { r with points := if r.dnf then 0 else 1, rankOverall := none })
    (by
      intro m a hm x hx
      rcases mem_values_setKV hx with h' | h'
      · subst h'
        by_cases hd : a.dnf <;> simp [hd]
      · exact hm x h')
    eventResults []
    (by intro x hx; simp at hx)

theorem calculateTeamTimeTrialPoints_nonneg (event : Event) (eventResults : List Result)
    (teams : List Team) (teamMembers : List TeamMember) (participants : List Participant)
    (settings : Settings) (hwp : ∀ x ∈ settings.winnerPoints, 0 ≤ x) :
    ∀ r ∈ calculateTeamTimeTrialPoints event eventResults teams teamMembers participants settings,
      0 ≤ r.points := by
  intro r hr
  simp only [calculateTeamTimeTrialPoints] at hr
  refine foldl_values_pred (fun x : Result => 0 ≤ x.points)
    (applyTeamMember (teamPointsMZF event eventResults teams teamMembers participants settings))
    (by
      intro m member hm x hx
      unfold applyTeamMember at hx
      rcases hget : getKV m member.participantId with _ | result
      · rw [hget] at hx
        exact hm x hx
      · rw [hget] at hx
        by_cases hd : result.dnf
        · simp only [hd, Bool.not_true, Bool.false_eq_true, if_false] at hx
          rcases mem_values_setKV hx with h' | h'
          · subst h'
            simp
          · exact hm x h'
        · simp only [hd, Bool.not_false, if_true] at hx
          rcases mem_values_setKV hx with h' | h'
          · subst h'
            have htp : 0 ≤ (match getKV (teamPointsMZF event eventResults teams teamMembers
                participants settings) member.teamId with
              | some p => if p = 0 then 1 else p
              | none => (1 : Int)) := by
              rcases hg : getKV (teamPointsMZF event eventResults teams teamMembers
                  participants settings) member.teamId with _ | p
              · simp
              · have hp := teamPointsMZF_value_nonneg event eventResults teams teamMembers
                  participants settings hwp (member.teamId, p) (getKV_mem hg)
                simp only at hp ⊢
                split_ifs <;> omega
            simp only
            split_ifs
            · exact le_max_left 0 _
            · exact htp
          · exact hm x h')
    teamMembers (initTeamResults eventResults)
    ?_ r hr
  exact foldl_values_pred (fun x : Result => 0 ≤ x.points)
    (fun m r => setKV m r.participantId { r with points := 0 })
    (by
      intro m a hm x hx
      rcases mem_values_setKV hx with h' | h'
      · subst h'
        simp
      · exact hm x h')
    eventResults []
    (by intro x hx; simp at hx)

/-- C9: every result returned by `scoreEvent` has non-negative points, for
all four event types and for unfinished events, provided the configured
`winnerPoints` and `handicapBasePoints` values are non-negative. -/
theorem C9_points_nonneg (event : Event) (eventResults : List Result)
    (participants : List Participant) (teams : List Team) (teamMembers : List TeamMember)
    (settings : Settings)
    (hwp : ∀ x ∈ settings.winnerPoints, 0 ≤ x)
    (_hbp : ∀ c, 0 ≤ settings.handicapBasePoints c) :
    ∀ r ∈ calculatePointsForEvent event eventResults participants teams teamMembers settings,
      0 ≤ r.points := by
  intro r hr
  unfold calculatePointsForEvent at hr
  by_cases hf : event.finished
  · simp only [hf, Bool.not_true, Bool.false_eq_true, if_false] at hr
    rcases ht : event.eventType with _ | _ | _ | _ <;> rw [ht] at hr
    · exact calculateTimeTrialPoints_nonneg event eventResults participants settings hwp r hr
    · exact calculateTeamTimeTrialPoints_nonneg event eventResults teams teamMembers
        participants settings hwp r hr
    · exact calculateTimeTrialPoints_nonneg event eventResults participants settings hwp r hr
    · rcases List.mem_map.1 hr with ⟨x, _, hx⟩
      rw [← hx]
      exact handicapPointsFor_nonneg participants settings x hwp
  · simp only [Bool.not_eq_true] at hf
    simp only [hf, Bool.not_false, if_true] at hr
    rcases List.mem_map.1 hr with ⟨x, _, hx⟩
    rw [← hx]

/-- Witness for `C9_points_nonneg`: the single finisher of the
time-trial example scores 11 ≥ 0 under the non-negative sample settings. -/
theorem C9_points_nonneg_witness : (0 : Int) ≤ resultTTExOut.points :=
  C9_points_nonneg evEZF [resultTTEx] [mkParticipant "p1" .C] [] [] sEx
    (by decide) (by intro c; cases c <;> decide) resultTTExOut (by decide)

/-! ### Claim C4: team time (n-1 rule) -/

theorem teamEntry_id (event : Event) (eventResults : List Result) (teamMembers : List TeamMember)
    (participants : List Participant) (settings : Settings) (team : Team) :
    (teamEntry event eventResults teamMembers participants settings team).id = team.id := by
  simp only [teamEntry]
  split_ifs <;> rfl

/-- C4: a team with at least 2 valid finishers gets adjusted time =
second-slowest valid time (index `length - 2` of the ascending sort) plus
the summed member handicaps; a team with fewer than 2 valid finishers gets
adjusted time `none` (`Infinity`), is ranked behind every finite team, and
receives no entry in the team-points map. -/
theorem C4_team_time_rule (event : Event) (eventResults : List Result) (teams : List Team)
    (teamMembers : List TeamMember) (participants : List Participant) (settings : Settings)
    (team : Team) (hmem : team ∈ teams) (hnodup : (teams.map (·.id)).Nodup) :
    (2 ≤ (validMemberResults eventResults
        (teamMembers.filter (fun tm => tm.teamId = team.id))).length →
      (teamEntry event eventResults teamMembers participants settings team).adjustedTime =
        some ((List.insertionSort (fun a b : Int => a ≤ b)
            ((validMemberResults eventResults
              (teamMembers.filter (fun tm => tm.teamId = team.id))).map
                (fun r => r.timeSeconds.getD 0))).getD
            ((validMemberResults eventResults
              (teamMembers.filter (fun tm => tm.teamId = team.id))).length - 2) 0
          + totalTeamHandicap event eventResults participants settings
              (teamMembers.filter (fun tm => tm.teamId = team.id))))
    ∧ ((validMemberResults eventResults
        (teamMembers.filter (fun tm => tm.teamId = team.id))).length < 2 →
      (teamEntry event eventResults teamMembers participants settings team).adjustedTime = none
      ∧ getKV (teamPointsMZF event eventResults teams teamMembers participants settings)
          team.id = none)
    ∧ (∀ i j : Fin (rankedTeamsMZF event eventResults teams teamMembers
          participants settings).length,
        i < j →
        ((rankedTeamsMZF event eventResults teams teamMembers participants
          settings).get i).adjustedTime = none →
        ((rankedTeamsMZF event eventResults teams teamMembers participants
          settings).get j).adjustedTime = none) := by
  refine ⟨?_, ?_, ?_⟩
  · intro h2
    have hne : ¬(validMemberResults eventResults
        (teamMembers.filter (fun tm => tm.teamId = team.id))).length < 2 := by omega
    simp only [teamEntry, hne, if_false]
    have hlen : (List.insertionSort (fun a b : Int => a ≤ b)
        ((validMemberResults eventResults
          (teamMembers.filter (fun tm => tm.teamId = team.id))).map
            (fun r => r.timeSeconds.getD 0))).length =
        (validMemberResults eventResults
          (teamMembers.filter (fun tm => tm.teamId = team.id))).length := by
      rw [List.length_insertionSort, List.length_map]
    have hidx : (max 0 (((List.insertionSort (fun a b : Int => a ≤ b)
        ((validMemberResults eventResults
          (teamMembers.filter (fun tm => tm.teamId = team.id))).map
            (fun r => r.timeSeconds.getD 0))).length : Int) - 2)).toNat =
        (validMemberResults eventResults
          (teamMembers.filter (fun tm => tm.teamId = team.id))).length - 2 := by
      rw [hlen]
      omega
    rw [hidx]
  · intro h2
    constructor
    · simp only [teamEntry, h2, if_true]
    · rcases hg : getKV (teamPointsMZF event eventResults teams teamMembers participants
          settings) team.id with _ | p
      · rfl
      · exfalso
        have hmem2 := getKV_mem hg
        rcases teamPointsMZF_entries event eventResults teams teamMembers participants settings
          (team.id, p) hmem2 with ⟨it, hit, hfin, hid, _⟩
        have h3 : it.2 ∈ rankedTeamsMZF event eventResults teams teamMembers participants
            settings := List.snd_mem_of_mem_enum hit
        have h4 : it.2 ∈ teams.map (teamEntry event eventResults teamMembers participants
            settings) := (List.mem_insertionSort teamLe).1 h3
        rcases List.mem_map.1 h4 with ⟨team', hteam', heq⟩
        have hid' : team'.id = team.id := by
          rw [← teamEntry_id event eventResults teamMembers participants settings team', heq]
          exact hid.symm
        have hsame : team' = team := List.inj_on_of_nodup_map hnodup hteam' hmem hid'
        rw [hsame] at heq
        apply hfin
        rw [← heq]
        simp only [teamEntry, h2, if_true]
  · intro i j hij hnone
    have hsorted : (rankedTeamsMZF event eventResults teams teamMembers participants
        settings).Sorted teamLe :=
      List.sorted_insertionSort teamLe
        (teams.map (teamEntry event eventResults teamMembers participants settings))
    have hrel := List.Sorted.rel_get_of_lt hsorted hij
    unfold teamLe at hrel
    rw [hnone] at hrel
    rcases hj : ((rankedTeamsMZF event eventResults teams teamMembers participants
        settings).get j).adjustedTime with _ | t
    · rfl
    · rw [hj] at hrel
      simp [cmpAdj] at hrel

/-- Witness for `C4_team_time_rule`: team `tA` of the counterexample event
(valid times `[200, 999]`) has adjusted time `some 200` = second-slowest
time + zero handicap. -/
theorem C4_team_time_rule_witness :
    (teamEntry evMZF resultsMZFEx teamMembersEx participantsEx sEx
        (⟨"tA", "e", "A"⟩ : Team)).adjustedTime =
      some ((List.insertionSort (fun a b : Int => a ≤ b)
          ((validMemberResults resultsMZFEx
            (teamMembersEx.filter (fun tm => tm.teamId = (⟨"tA", "e", "A"⟩ : Team).id))).map
              (fun r => r.timeSeconds.getD 0))).getD
          ((validMemberResults resultsMZFEx
            (teamMembersEx.filter (fun tm => tm.teamId = (⟨"tA", "e", "A"⟩ : Team).id))).length - 2) 0
        + totalTeamHandicap evMZF resultsMZFEx participantsEx sEx
            (teamMembersEx.filter (fun tm => tm.teamId = (⟨"tA", "e", "A"⟩ : Team).id))) :=
  (C4_team_time_rule evMZF resultsMZFEx teamsEx teamMembersEx participantsEx sEx
    ⟨"tA", "e", "A"⟩ (by decide) (by decide)).1 (by decide)

/-! ### Claim C8: set preservation -/

theorem map_frameOf_of_pointwise {l : List Result} {f : Result → Result}
    (h : ∀ r, frameOf (f r) = frameOf r) : (l.map f).map frameOf = l.map frameOf := by
  rw [List.map_map]
  exact List.map_congr_left (fun a _ => h a)

theorem calculateTimeTrialPoints_frames (event : Event) (eventResults : List Result)
    (participants : List Participant) (settings : Settings)
    (hid : (eventResults.map (·.id)).Nodup) :
    (calculateTimeTrialPoints event eventResults participants settings).map frameOf =
      eventResults.map frameOf := by
  have hinit : initTTMap eventResults = [] ++ eventResults.map
      (fun r => (r.id, { r with points := if r.dnf then 0 else 1, rankOverall := none })) :=
    foldl_setKV_eq_append (fun r : Result => r.id)
      (fun r : Result =>
        ({ r with points := if r.dnf then 0 else 1, rankOverall := none } : Result))
      eventResults [] (by intro a _; simp) hid
  have hkey := foldl_pres_mem
    (fun m : List (String × Result) =>
      (m.map (fun e => frameOf e.2) = eventResults.map frameOf) ∧
      (∀ r ∈ eventResults, ∃ w, getKV m r.id = some w ∧ frameOf w = frameOf r))
    (ttStep settings)
    (sortedFinishersTT event eventResults participants settings).enum
    (by
      intro m iv hiv hm
      have hr0 : iv.2.1 ∈ eventResults := sortedFinishersTT_fst_mem hiv
      rcases hm.2 iv.2.1 hr0 with ⟨w, hget, hfw⟩
      have hfv : frameOf { iv.2.1 with
          points := ttPointsAt settings iv.1,
          rankOverall := some ((iv.1 : Int) + 1) } = frameOf iv.2.1 := rfl
      constructor
      · unfold ttStep
        exact (map_snd_setKV_of_getKV frameOf hget (hfv.trans hfw.symm)).trans hm.1
      · intro r hr
        by_cases hidr : r.id = iv.2.1.id
        · refine ⟨{ iv.2.1 with
              points := ttPointsAt settings iv.1,
              rankOverall := some ((iv.1 : Int) + 1) }, ?_, ?_⟩
          · unfold ttStep
            rw [hidr]
            exact getKV_setKV_self m iv.2.1.id _
          · rw [hfv]
            have hsame : r = iv.2.1 := List.inj_on_of_nodup_map hid hr hr0 hidr
            rw [hsame]
        · rcases hm.2 r hr with ⟨w', hg', hf'⟩
          refine ⟨w', ?_, hf'⟩
          unfold ttStep
          rw [getKV_setKV_ne m _ _ _ hidr]
          exact hg')
    (initTTMap eventResults)
    (by
      constructor
      · rw [hinit]
        simp only [List.nil_append, List.map_map]
        exact List.map_congr_left (fun a _ => rfl)
      · intro r hr
        refine ⟨{ r with points := if r.dnf then 0 else 1, rankOverall := none }, ?_, rfl⟩
        rw [hinit]
        simp only [List.nil_append]
        exact getKV_map_key (fun r : Result => r.id)
          (fun r => { r with points := if r.dnf then 0 else 1, rankOverall := none })
          eventResults hid r hr)
  simp only [calculateTimeTrialPoints]
  rw [List.map_map]
  exact (List.map_congr_left (fun a _ => rfl)).trans hkey.1

theorem calculateTeamTimeTrialPoints_frames (event : Event) (eventResults : List Result)
    (teams : List Team) (teamMembers : List TeamMember) (participants : List Participant)
    (settings : Settings) (hpid : (eventResults.map (·.participantId)).Nodup) :
    (calculateTeamTimeTrialPoints event eventResults teams teamMembers participants
      settings).map frameOf = eventResults.map frameOf := by
  have hinit : initTeamResults eventResults = [] ++ eventResults.map
      (fun r => (r.participantId, { r with points := 0 })) :=
    foldl_setKV_eq_append (fun r : Result => r.participantId)
      (fun r : Result => ({ r with points := 0 } : Result)) eventResults []
      (by intro a _; simp) hpid
  have hkey := foldl_pres_mem
    (fun m : List (String × Result) =>
      m.map (fun e => frameOf e.2) = eventResults.map frameOf)
    (applyTeamMember (teamPointsMZF event eventResults teams teamMembers participants settings))
    teamMembers
    (by
      intro m member _ hm
      unfold applyTeamMember
      rcases hget : getKV m member.participantId with _ | result
      · exact hm
      · by_cases hd : result.dnf
        · simp only [hd, Bool.not_true, Bool.false_eq_true, if_false]
          exact (map_snd_setKV_of_getKV frameOf hget (by simp [frameOf, hd])).trans hm
        · have hd' : result.dnf = false := by simpa using hd
          simp only [hd', Bool.not_false, if_true]
          exact (map_snd_setKV_of_getKV frameOf hget (by simp [frameOf, hd'])).trans hm)
    (initTeamResults eventResults)
    (by
      rw [hinit]
      simp only [List.nil_append, List.map_map]
      exact List.map_congr_left (fun a _ => rfl))
  simp only [calculateTeamTimeTrialPoints]
  rw [List.map_map]
  exact (List.map_congr_left (fun a _ => rfl)).trans hkey

/-- C8 counterexample: two results sharing one result id (with distinct
participants, so the claimed one-result-per-(event, participant) hypothesis
holds) collapse to a single map entry in the individual time-trial scorer:
the output has 1 record for 2 inputs. -/
theorem C8_counterexample :
    (resultsDupId.map (·.participantId)).Nodup
    ∧ (calculatePointsForEvent evEZF resultsDupId
        [mkParticipant "p1" .C, mkParticipant "p2" .C] [] [] sEx).length = 1
    ∧ resultsDupId.length = 2 := by
  refine ⟨by decide, by decide, by decide⟩

/-- C8 (amended): `scoreEvent` is set-preserving — one output record per
input result with identical id, eventId, participantId, timeSeconds,
winnerRank, finisherGroup, dnf and equipment flags (only `points` and
`rankOverall` may change) — for every input whose results have pairwise
distinct participant ids **and pairwise distinct result ids**, for all
four event types and for unfinished events. -/
theorem C8_frame_preservation (event : Event) (eventResults : List Result)
    (participants : List Participant) (teams : List Team) (teamMembers : List TeamMember)
    (settings : Settings)
    (hid : (eventResults.map (·.id)).Nodup)
    (hpid : (eventResults.map (·.participantId)).Nodup) :
    (calculatePointsForEvent event eventResults participants teams teamMembers settings).map
      frameOf = eventResults.map frameOf := by
  unfold calculatePointsForEvent
  by_cases hf : event.finished
  · simp only [hf, Bool.not_true, Bool.false_eq_true, if_false]
    cases ht : event.eventType
    · exact calculateTimeTrialPoints_frames event eventResults participants settings hid
    · exact calculateTeamTimeTrialPoints_frames event eventResults teams teamMembers
        participants settings hpid
    · exact calculateTimeTrialPoints_frames event eventResults participants settings hid
    · exact map_frameOf_of_pointwise (fun r => rfl)
  · simp only [Bool.not_eq_true] at hf
    simp only [hf, Bool.not_false, if_true]
    exact map_frameOf_of_pointwise (fun r => rfl)

/-- Witness for `C8_frame_preservation`: the one-finisher time trial keeps
exactly its one record with an unchanged frame. -/
theorem C8_frame_preservation_witness :
    (calculatePointsForEvent evEZF [resultTTEx] [mkParticipant "p1" .C] [] [] sEx).map frameOf
      = [resultTTEx].map frameOf :=
  C8_frame_preservation evEZF [resultTTEx] [mkParticipant "p1" .C] [] [] sEx
    (by decide) (by decide)

end SkinfitCup
